import Mathlib

/-!
Shallow embedding of the `moonshine_check` engine (src/src/lib.rs).

Entities are natural numbers; a component type is identified by a `CompId`
and carries a `Nat` payload (the marker components `Checked` and `Invalid`
are zero-size in the source, so their payload is irrelevant and fixed to 0).
A world is an iteration order over live entities together with a map from
entity to its attached components; `none` means the entity is not alive.

Bevy `Commands` are modelled as an explicit command buffer (`List Cmd`)
applied in program order at the synchronization point; `despawn_recursive`
is modelled as removal of the entity itself (cascading-removal mechanics for
entity hierarchies are the host store's, outside this crate).  A check system
added by `Check::check` (lib.rs lines 50-98) scans the pre-cycle snapshot and
appends commands to the buffer; `panic!` aborts the process, modelled by
`Option.none` results that discard the buffer.
-/

abbrev Entity := Nat

abbrev CompId := Nat

/-- The `Checked` marker component (lib.rs line 395). -/
def checkedId : CompId := 0

/-- The `Invalid` marker component (lib.rs line 398). -/
def invalidId : CompId := 1

/-- The components attached to one entity: an association list from component
type id to payload.  At most one entry per component id is maintained by
`insertComp`/`removeComp`. -/
abbrev Comps := List (CompId × Nat)

def hasComp (cs : Comps) (c : CompId) : Bool :=
  cs.any fun p => p.1 == c

def getComp (cs : Comps) (c : CompId) : Option Nat :=
  (cs.find? fun p => p.1 == c).map Prod.snd

/-- Inserting a component replaces any existing value of the same type. -/
def insertComp (cs : Comps) (c : CompId) (v : Nat) : Comps :=
  (c, v) :: cs.filter fun p => p.1 != c

def removeComp (cs : Comps) (c : CompId) : Comps :=
  cs.filter fun p => p.1 != c

/-- The host store: live entities in iteration order, and their components. -/
structure World where
  order : List Entity
  comps : Entity → Option Comps

def World.contains (w : World) (e : Entity) (c : CompId) : Bool :=
  match w.comps e with
  | some cs => hasComp cs c
  | none => false

/-- A buffered mutation, as issued through `Commands` during a scan. -/
inductive Cmd where
  | insert (e : Entity) (c : CompId) (v : Nat)
  | remove (e : Entity) (c : CompId)
  | despawn (e : Entity)
deriving DecidableEq

/-- Applying one buffered command at the synchronization point.  Commands
aimed at an entity that no longer exists are dropped. -/
def applyCmd (w : World) : Cmd → World
  | .insert e c v => ⟨w.order, fun x => if x == e then (w.comps e).map (insertComp · c v) else w.comps x⟩
  | .remove e c => ⟨w.order, fun x => if x == e then (w.comps e).map (removeComp · c) else w.comps x⟩
  | .despawn e => ⟨w.order.filter (· != e), fun x => if x == e then none else w.comps x⟩

def applyCmds (w : World) (cmds : List Cmd) : World :=
  cmds.foldl applyCmd w

/-- `QueryFilter` semantics of `With<C>`. -/
def With (c : CompId) (cs : Comps) : Bool := hasComp cs c

/-- `QueryFilter` semantics of `Without<C>`. -/
def Without (c : CompId) (cs : Comps) : Bool := !hasComp cs c

/-- `type Unchecked = Without<Checked>` (lib.rs line 392). -/
def Unchecked (cs : Comps) : Bool := Without checkedId cs

/-- `struct Valid(With<Checked>, Without<Invalid>)` (lib.rs line 373). -/
def Valid (cs : Comps) : Bool := With checkedId cs && Without invalidId cs

/-- `CheckAgain::check_again` (lib.rs lines 380-390): the buffered commands of
`self.remove::<Checked>().remove::<Invalid>()`, in program order. -/
def check_again (e : Entity) : List Cmd :=
  [Cmd.remove e checkedId, Cmd.remove e invalidId]

/-- A `Fixer` (lib.rs line 122): user repair logic given a read-only view of
the entity (its id and components) which appends commands to the buffer, in
order.  `none` models the fixer itself panicking. -/
structure Fixer where
  run : Entity → Comps → Option (List Cmd)

/-- `Policy` (lib.rs lines 110-119). -/
inductive Policy where
  | invalid
  | purge
  | panic
  | repair (fixer : Fixer)

/-- One check registration added by `Check::check::<T, F>(policy)`: the kind
`T` and the `QueryFilter` `F` are predicates over an entity's components. -/
structure CheckReg where
  kind : Comps → Bool
  filter : Comps → Bool
  policy : Policy

/-- Log events emitted by the scan body (lib.rs lines 63, 71, 77, 88). -/
inductive LogEv where
  | valid (e : Entity)
  | invalid (e : Entity)
  | purged (e : Entity)
  | repaired (e : Entity)
deriving DecidableEq

/-- What one check's scan emits when the process does not abort: the buffered
commands and the log events, in program order. -/
structure ScanOut where
  cmds : List Cmd
  log : List LogEv
deriving DecidableEq

/-- The loop body of the check system for one scanned instance (lib.rs lines
59-92).  `check.get(e).is_err()` means the filter does not match; then a
`Checked` insertion is buffered and no policy runs.  Otherwise the policy is
dispatched: `Invalid` buffers `(Checked, Invalid)`, `Purge` buffers a
despawn, `Panic` aborts the process synchronously (`none`), and
`Repair(fixer)` first buffers the engine's `Checked` insertion (line 86) and
then appends the fixer's commands (line 87). -/
def stepInstance (reg : CheckReg) (w : World) (e : Entity) : Option ScanOut :=
  match w.comps e with
  | none => some ⟨[], []⟩
  | some cs =>
    if !reg.filter cs then
      some ⟨[Cmd.insert e checkedId 0], [LogEv.valid e]⟩
    else
      match reg.policy with
      | .invalid => some ⟨[Cmd.insert e checkedId 0, Cmd.insert e invalidId 0], [LogEv.invalid e]⟩
      | .purge => some ⟨[Cmd.despawn e], [LogEv.purged e]⟩
      | .panic => none
      | .repair fixer =>
        match fixer.run e cs with
        | none => none
        | some fcmds => some ⟨Cmd.insert e checkedId 0 :: fcmds, [LogEv.repaired e]⟩

/-- The instances iterated by `Query<Instance<T>, Unchecked>`: live entities
of the bound kind currently lacking `Checked`, from the pre-cycle snapshot. -/
def scanTargets (reg : CheckReg) (w : World) : List Entity :=
  w.order.filter fun e =>
    match w.comps e with
    | some cs => reg.kind cs && Unchecked cs
    | none => false

/-- The `for instance in query.iter()` loop over the snapshot `w`.  A panic
anywhere aborts the process: no commands are applied and no later instance
is processed. -/
def runScan (reg : CheckReg) (w : World) : List Entity → Option ScanOut
  | [] => some ⟨[], []⟩
  | e :: es =>
    match stepInstance reg w e with
    | none => none
    | some o =>
      match runScan reg w es with
      | none => none
      | some o' => some ⟨o.cmds ++ o'.cmds, o.log ++ o'.log⟩

/-- One whole check system run against the snapshot `w`. -/
def runCheck (reg : CheckReg) (w : World) : Option ScanOut :=
  runScan reg w (scanTargets reg w)

/-- All registered check systems of one cycle.  Every check reads the same
pre-cycle snapshot `w`: buffered commands become visible only at the
synchronization point after the whole check phase.  A panic aborts the
process before any later check runs. -/
def runChecks : List CheckReg → World → Option ScanOut
  | [], _ => some ⟨[], []⟩
  | r :: rs, w =>
    match runCheck r w with
    | none => none
    | some o =>
      match runChecks rs w with
      | none => none
      | some o' => some ⟨o.cmds ++ o'.cmds, o.log ++ o'.log⟩

/-- One cycle: run every check against the snapshot, then apply the whole
buffer in program order at the synchronization point. -/
def runCycle (regs : List CheckReg) (w : World) : Option (World × List LogEv) :=
  match runChecks regs w with
  | none => none
  | some o => some (applyCmds w o.cmds, o.log)

/-- `n` consecutive cycles. -/
def runCycles (regs : List CheckReg) : Nat → World → Option (World × List LogEv)
  | 0, w => some (w, [])
  | n + 1, w =>
    match runCycle regs w with
    | none => none
    | some (w', log) =>
      match runCycles regs n w' with
      | none => none
      | some (w'', log') => some (w'', log ++ log')

/-- The worlds observed at the start of each cycle (up to `n` cycles, cut
short if the process aborts). -/
def cycleStates (regs : List CheckReg) : Nat → World → List World
  | 0, w => [w]
  | n + 1, w =>
    w ::
      match runCycle regs w with
      | none => []
      | some (w', _) => cycleStates regs n w'

/-- `pub fn repair(f: impl Fix) -> Policy` (lib.rs line 316). -/
def repair (f : Fixer) : Policy := .repair f

/-- The fixer closure inside `repair_replace_with` (lib.rs lines 354-360):
`entity.get::<T>().unwrap()` panics when `T` is absent; otherwise it buffers
`remove::<T>()` and then `insert(f(component))`. -/
def repair_replace_with_fixer (tId uId : CompId) (f : Nat → Nat) : Fixer :=
  ⟨fun e cs =>
    match getComp cs tId with
    | none => none
    | some v => some [Cmd.remove e tId, Cmd.insert e uId (f v)]⟩

/-- `pub fn repair_replace_with<T, U, F>(f: F) -> Policy` (lib.rs line 350). -/
def repair_replace_with (tId uId : CompId) (f : Nat → Nat) : Policy :=
  repair (repair_replace_with_fixer tId uId f)

/-- A log event records a policy dispatch exactly when it is not the benign
`debug!("... is valid.")` line of the non-matching branch. -/
def LogEv.isPolicy : LogEv → Bool
  | .valid _ => false
  | .invalid _ => true
  | .purged _ => true
  | .repaired _ => true

/-- The marker invariant: `Invalid` is present only together with `Checked`. -/
def MarkerInv (w : World) : Prop :=
  ∀ e, w.contains e invalidId = true → w.contains e checkedId = true

/-- Concrete component ids for the scenarios of the test module
(lib.rs lines 400-518). -/
def fooId : CompId := 2

def barId : CompId := 3

def bazId : CompId := 4

/-- The `Repaired` marker of `test_check_again` (lib.rs line 480). -/
def repairedId : CompId := 5

/-- A world holding one entity `0` with only `Foo`, as spawned by
`test_panic`, `test_repair` and `test_check_again`. -/
def wFoo : World := ⟨[0], fun e => if e == 0 then some [(fooId, 0)] else none⟩

/-- A world holding one entity `0` with `Foo` and `Bar`, as spawned by
`test_valid` and `test_multiple`. -/
def wFooBar : World :=
  ⟨[0], fun e => if e == 0 then some [(fooId, 0), (barId, 0)] else none⟩

/-- A world holding one entity `0` with `Foo` and `Checked`. -/
def wChecked : World :=
  ⟨[0], fun e => if e == 0 then some [(fooId, 0), (checkedId, 0)] else none⟩

/-- An empty world. -/
def wEmpty : World := ⟨[], fun _ => none⟩

/-- `check::<Foo, Without<Bar>>(panic())`. -/
def regPanicBar : CheckReg := ⟨With fooId, Without barId, Policy.panic⟩

/-- `check::<Foo, Without<Baz>>(panic())`. -/
def regPanicBaz : CheckReg := ⟨With fooId, Without bazId, Policy.panic⟩

/-- `check::<Foo, Without<Bar>>(invalid())`. -/
def regInvalidBar : CheckReg := ⟨With fooId, Without barId, Policy.invalid⟩

/-- A fixer that inserts a `Repaired` marker on the broken entity. -/
def fixMark : Fixer := ⟨fun e _ => some [Cmd.insert e repairedId 0]⟩

/-- `check::<Foo, Without<Bar>>(repair(...))` with the marker fixer. -/
def regRepairMark : CheckReg := ⟨With fooId, Without barId, Policy.repair fixMark⟩

/-- The fixer of `test_check_again` (lib.rs lines 484-493): panic when the
`Repaired` marker is already present, otherwise insert `Repaired` and invoke
`check_again`. -/
def fixRecheck : Fixer :=
  ⟨fun e cs =>
    if hasComp cs repairedId then none
    else some (Cmd.insert e repairedId 0 :: check_again e)⟩

/-- `check::<Foo, Without<Bar>>(repair(...))` with the re-checking fixer. -/
def regRecheck : CheckReg := ⟨With fooId, Without barId, Policy.repair fixRecheck⟩

/-- An entity that is either despawned or carries the `Checked` marker; such
an entity is never selected by any check's scan. -/
def checkedOrGone (w : World) (e : Entity) : Prop :=
  w.comps e = none ∨ w.contains e checkedId = true

/-- No fixer reachable from `regs` ever buffers the command `c`. -/
def FixerAvoids (regs : List CheckReg) (c : Cmd) : Prop :=
  ∀ reg ∈ regs, ∀ f, reg.policy = Policy.repair f →
    ∀ e cs fcmds, f.run e cs = some fcmds → c ∉ fcmds

theorem hasComp_insertComp_self (cs : Comps) (c : CompId) (v : Nat) :
    hasComp (insertComp cs c v) c = true := by
  simp [hasComp, insertComp]

theorem hasComp_insertComp_ne (cs : Comps) (c c' : CompId) (v : Nat) (h : c' ≠ c) :
    hasComp (insertComp cs c v) c' = hasComp cs c' := by
  simp only [hasComp, insertComp, List.any_cons, List.any_filter]
  have : (c == c') = false := by simp [Ne.symm h]
  simp only [this, Bool.false_or]
  congr 1
  funext p
  by_cases hp : p.1 = c'
  · simp [hp, h]
  · simp [hp]

theorem hasComp_removeComp_self (cs : Comps) (c : CompId) :
    hasComp (removeComp cs c) c = false := by
  simp [hasComp, removeComp, List.any_filter]

theorem hasComp_removeComp_ne (cs : Comps) (c c' : CompId) (h : c' ≠ c) :
    hasComp (removeComp cs c) c' = hasComp cs c' := by
  simp only [hasComp, removeComp, List.any_filter]
  congr 1
  funext p
  by_cases hp : p.1 = c'
  · simp [hp, h]
  · simp [hp]

theorem contains_of_comps (w : World) (e : Entity) (c : CompId) (cs : Comps)
    (h : w.comps e = some cs) : w.contains e c = hasComp cs c := by
  unfold World.contains; rw [h]

theorem contains_of_gone (w : World) (e : Entity) (c : CompId)
    (h : w.comps e = none) : w.contains e c = false := by
  unfold World.contains; rw [h]

theorem comps_insert_self (w : World) (e : Entity) (c : CompId) (v : Nat) :
    (applyCmd w (Cmd.insert e c v)).comps e = (w.comps e).map (insertComp · c v) := by
  simp [applyCmd]

theorem comps_insert_other (w : World) (x e : Entity) (c : CompId) (v : Nat) (h : x ≠ e) :
    (applyCmd w (Cmd.insert e c v)).comps x = w.comps x := by
  simp [applyCmd, h]

theorem comps_remove_self (w : World) (e : Entity) (c : CompId) :
    (applyCmd w (Cmd.remove e c)).comps e = (w.comps e).map (removeComp · c) := by
  simp [applyCmd]

theorem comps_remove_other (w : World) (x e : Entity) (c : CompId) (h : x ≠ e) :
    (applyCmd w (Cmd.remove e c)).comps x = w.comps x := by
  simp [applyCmd, h]

theorem comps_despawn_self (w : World) (e : Entity) :
    (applyCmd w (Cmd.despawn e)).comps e = none := by
  simp [applyCmd]

theorem comps_despawn_other (w : World) (x e : Entity) (h : x ≠ e) :
    (applyCmd w (Cmd.despawn e)).comps x = w.comps x := by
  simp [applyCmd, h]

theorem comps_applyCmd_gone (w : World) (e : Entity) (cmd : Cmd)
    (h : w.comps e = none) : (applyCmd w cmd).comps e = none := by
  cases cmd with
  | insert e' c v =>
    simp only [applyCmd]
    by_cases he : e = e'
    · subst he; simp [h]
    · simp [beq_eq_false_iff_ne.mpr he, h]
  | remove e' c =>
    simp only [applyCmd]
    by_cases he : e = e'
    · subst he; simp [h]
    · simp [beq_eq_false_iff_ne.mpr he, h]
  | despawn e' =>
    simp only [applyCmd]
    by_cases he : e = e'
    · simp [he]
    · simp [beq_eq_false_iff_ne.mpr he, h]

theorem comps_applyCmds_gone (w : World) (e : Entity) (cmds : List Cmd)
    (h : w.comps e = none) : (applyCmds w cmds).comps e = none := by
  induction cmds generalizing w with
  | nil => exact h
  | cons c cs ih => exact ih _ (comps_applyCmd_gone w e c h)

theorem checkedOrGone_applyCmd (w : World) (e : Entity) (cmd : Cmd)
    (h : checkedOrGone w e) (hne : cmd ≠ Cmd.remove e checkedId) :
    checkedOrGone (applyCmd w cmd) e := by
  rcases h with h | h
  · exact Or.inl (comps_applyCmd_gone w e cmd h)
  · rcases hcs : w.comps e with _ | cs
    · rw [contains_of_gone w e checkedId hcs] at h; exact absurd h (by simp)
    rw [contains_of_comps w e checkedId cs hcs] at h
    cases cmd with
    | insert e' c v =>
      by_cases he : e = e'
      · subst he
        refine Or.inr ?_
        have hc2 : (applyCmd w (Cmd.insert e c v)).comps e = some (insertComp cs c v) := by
          rw [comps_insert_self, hcs]; rfl
        rw [contains_of_comps _ e checkedId _ hc2]
        by_cases hc : c = checkedId
        · subst hc; exact hasComp_insertComp_self cs checkedId v
        · rw [hasComp_insertComp_ne cs c checkedId v (Ne.symm hc)]; exact h
      · refine Or.inr ?_
        have hc2 := comps_insert_other w e e' c v he
        rw [contains_of_comps _ e checkedId cs (hc2.trans hcs)]; exact h
    | remove e' c =>
      by_cases he : e = e'
      · subst he
        have hc : c ≠ checkedId := fun hcc => hne (by rw [hcc])
        refine Or.inr ?_
        have hc2 : (applyCmd w (Cmd.remove e c)).comps e = some (removeComp cs c) := by
          rw [comps_remove_self, hcs]; rfl
        rw [contains_of_comps _ e checkedId _ hc2]
        rw [hasComp_removeComp_ne cs c checkedId (Ne.symm hc)]; exact h
      · refine Or.inr ?_
        have hc2 := comps_remove_other w e e' c he
        rw [contains_of_comps _ e checkedId cs (hc2.trans hcs)]; exact h
    | despawn e' =>
      by_cases he : e = e'
      · subst he
        exact Or.inl (comps_despawn_self w e)
      · refine Or.inr ?_
        have hc2 := comps_despawn_other w e e' he
        rw [contains_of_comps _ e checkedId cs (hc2.trans hcs)]; exact h

theorem checkedOrGone_applyCmds (w : World) (e : Entity) (cmds : List Cmd)
    (h : checkedOrGone w e) (hne : Cmd.remove e checkedId ∉ cmds) :
    checkedOrGone (applyCmds w cmds) e := by
  induction cmds generalizing w with
  | nil => exact h
  | cons c cs ih =>
    have h1 : c ≠ Cmd.remove e checkedId := fun hc => hne (hc ▸ List.mem_cons_self c cs)
    have h2 : Cmd.remove e checkedId ∉ cs := fun hc => hne (List.mem_cons_of_mem c hc)
    exact ih _ (checkedOrGone_applyCmd w e c h (fun hc => h1 hc)) h2

theorem not_mem_scanTargets_of_checkedOrGone (reg : CheckReg) (w : World) (e : Entity)
    (h : checkedOrGone w e) : e ∉ scanTargets reg w := by
  intro hmem
  rcases List.mem_filter.mp hmem with ⟨_, hcond⟩
  rcases hcs : w.comps e with _ | cs
  · rw [hcs] at hcond; exact absurd hcond (by simp)
  rw [hcs] at hcond
  simp only [Bool.and_eq_true] at hcond
  rcases h with h | h
  · rw [hcs] at h; exact Option.some_ne_none cs h
  · rw [contains_of_comps w e checkedId cs hcs] at h
    have h2 : Unchecked cs = true := hcond.2
    unfold Unchecked Without at h2
    rw [h] at h2
    exact absurd h2 (by simp)

theorem stepInstance_gone (reg : CheckReg) (w : World) (e : Entity)
    (h : w.comps e = none) : stepInstance reg w e = some ⟨[], []⟩ := by
  simp [stepInstance, h]

theorem stepInstance_nomatch (reg : CheckReg) (w : World) (e : Entity) (cs : Comps)
    (h : w.comps e = some cs) (hf : reg.filter cs = false) :
    stepInstance reg w e = some ⟨[Cmd.insert e checkedId 0], [LogEv.valid e]⟩ := by
  simp [stepInstance, h, hf]

theorem stepInstance_invalid (reg : CheckReg) (w : World) (e : Entity) (cs : Comps)
    (h : w.comps e = some cs) (hf : reg.filter cs = true)
    (hpol : reg.policy = Policy.invalid) :
    stepInstance reg w e
      = some ⟨[Cmd.insert e checkedId 0, Cmd.insert e invalidId 0], [LogEv.invalid e]⟩ := by
  simp [stepInstance, h, hf, hpol]

theorem stepInstance_purge (reg : CheckReg) (w : World) (e : Entity) (cs : Comps)
    (h : w.comps e = some cs) (hf : reg.filter cs = true)
    (hpol : reg.policy = Policy.purge) :
    stepInstance reg w e = some ⟨[Cmd.despawn e], [LogEv.purged e]⟩ := by
  simp [stepInstance, h, hf, hpol]

theorem stepInstance_panic (reg : CheckReg) (w : World) (e : Entity) (cs : Comps)
    (h : w.comps e = some cs) (hf : reg.filter cs = true)
    (hpol : reg.policy = Policy.panic) :
    stepInstance reg w e = none := by
  simp [stepInstance, h, hf, hpol]

theorem stepInstance_repair (reg : CheckReg) (w : World) (e : Entity) (cs : Comps)
    (fixer : Fixer) (fcmds : List Cmd)
    (h : w.comps e = some cs) (hf : reg.filter cs = true)
    (hpol : reg.policy = Policy.repair fixer) (hfx : fixer.run e cs = some fcmds) :
    stepInstance reg w e
      = some ⟨Cmd.insert e checkedId 0 :: fcmds, [LogEv.repaired e]⟩ := by
  simp [stepInstance, h, hf, hpol, hfx]

theorem stepInstance_repair_abort (reg : CheckReg) (w : World) (e : Entity) (cs : Comps)
    (fixer : Fixer)
    (h : w.comps e = some cs) (hf : reg.filter cs = true)
    (hpol : reg.policy = Policy.repair fixer) (hfx : fixer.run e cs = none) :
    stepInstance reg w e = none := by
  simp [stepInstance, h, hf, hpol, hfx]

theorem applyCmds_append (w : World) (l1 l2 : List Cmd) :
    applyCmds w (l1 ++ l2) = applyCmds (applyCmds w l1) l2 :=
  List.foldl_append applyCmd w l1 l2

theorem gone_of_despawn_mem (w : World) (e : Entity) (cmds : List Cmd)
    (h : Cmd.despawn e ∈ cmds) : (applyCmds w cmds).comps e = none := by
  rcases List.append_of_mem h with ⟨l1, l2, rfl⟩
  rw [applyCmds_append]
  show (applyCmds (applyCmd (applyCmds w l1) (Cmd.despawn e)) l2).comps e = none
  exact comps_applyCmds_gone _ e l2 (comps_despawn_self _ e)

theorem checkedOrGone_of_insert_mem (w : World) (e : Entity) (v : Nat) (cmds : List Cmd)
    (hmem : Cmd.insert e checkedId v ∈ cmds) (hnr : Cmd.remove e checkedId ∉ cmds) :
    checkedOrGone (applyCmds w cmds) e := by
  rcases List.append_of_mem hmem with ⟨l1, l2, rfl⟩
  rw [applyCmds_append]
  show checkedOrGone (applyCmds (applyCmd (applyCmds w l1) (Cmd.insert e checkedId v)) l2) e
  have hnr2 : Cmd.remove e checkedId ∉ l2 := fun hc =>
    hnr (List.mem_append.mpr (Or.inr (List.mem_cons_of_mem _ hc)))
  refine checkedOrGone_applyCmds _ e l2 ?_ hnr2
  rcases hcs : (applyCmds w l1).comps e with _ | cs
  · exact Or.inl (comps_applyCmd_gone _ e _ hcs)
  · refine Or.inr ?_
    have hc2 : (applyCmd (applyCmds w l1) (Cmd.insert e checkedId v)).comps e
        = some (insertComp cs checkedId v) := by
      rw [comps_insert_self, hcs]; rfl
    rw [contains_of_comps _ e checkedId _ hc2]
    exact hasComp_insertComp_self cs checkedId v

theorem runScan_none_of_mem (reg : CheckReg) (w : World) (es : List Entity) (e : Entity)
    (hmem : e ∈ es) (hstep : stepInstance reg w e = none) : runScan reg w es = none := by
  induction es with
  | nil => cases hmem
  | cons x xs ih =>
    rcases List.mem_cons.mp hmem with rfl | hmem2
    · unfold runScan; rw [hstep]
    · unfold runScan
      cases hx : stepInstance reg w x with
      | none => rfl
      | some ox => rw [ih hmem2]

theorem runScan_sub (reg : CheckReg) (w : World) (es : List Entity) (e : Entity)
    (o : ScanOut) (hrun : runScan reg w es = some o) (hmem : e ∈ es) :
    ∃ oe, stepInstance reg w e = some oe ∧
      (∀ c ∈ oe.cmds, c ∈ o.cmds) ∧ (∀ ev ∈ oe.log, ev ∈ o.log) := by
  induction es generalizing o with
  | nil => cases hmem
  | cons x xs ih =>
    unfold runScan at hrun
    cases hx : stepInstance reg w x with
    | none => rw [hx] at hrun; cases hrun
    | some ox =>
      rw [hx] at hrun
      cases hxs : runScan reg w xs with
      | none => rw [hxs] at hrun; cases hrun
      | some oxs =>
        rw [hxs] at hrun
        cases hrun
        rcases List.mem_cons.mp hmem with rfl | hmem2
        · exact ⟨ox, hx,
            fun c hc => List.mem_append.mpr (Or.inl hc),
            fun ev hev => List.mem_append.mpr (Or.inl hev)⟩
        · rcases ih oxs hxs hmem2 with ⟨oe, h1, h2, h3⟩
          exact ⟨oe, h1,
            fun c hc => List.mem_append.mpr (Or.inr (h2 c hc)),
            fun ev hev => List.mem_append.mpr (Or.inr (h3 ev hev))⟩

theorem runChecks_none_of_mem (regs : List CheckReg) (w : World) (reg : CheckReg)
    (hmem : reg ∈ regs) (hrun : runCheck reg w = none) : runChecks regs w = none := by
  induction regs with
  | nil => cases hmem
  | cons r rs ih =>
    rcases List.mem_cons.mp hmem with rfl | hmem2
    · unfold runChecks; rw [hrun]
    · unfold runChecks
      cases hr : runCheck r w with
      | none => rfl
      | some orr => rw [ih hmem2]

theorem runChecks_sub (regs : List CheckReg) (w : World) (reg : CheckReg)
    (o : ScanOut) (hrun : runChecks regs w = some o) (hmem : reg ∈ regs) :
    ∃ oR, runCheck reg w = some oR ∧
      (∀ c ∈ oR.cmds, c ∈ o.cmds) ∧ (∀ ev ∈ oR.log, ev ∈ o.log) := by
  induction regs generalizing o with
  | nil => cases hmem
  | cons r rs ih =>
    unfold runChecks at hrun
    cases hr : runCheck r w with
    | none => rw [hr] at hrun; cases hrun
    | some orr =>
      rw [hr] at hrun
      cases hrs : runChecks rs w with
      | none => rw [hrs] at hrun; cases hrun
      | some ors =>
        rw [hrs] at hrun
        cases hrun
        rcases List.mem_cons.mp hmem with rfl | hmem2
        · exact ⟨orr, hr,
            fun c hc => List.mem_append.mpr (Or.inl hc),
            fun ev hev => List.mem_append.mpr (Or.inl hev)⟩
        · rcases ih ors hrs hmem2 with ⟨oR, h1, h2, h3⟩
          exact ⟨oR, h1,
            fun c hc => List.mem_append.mpr (Or.inr (h2 c hc)),
            fun ev hev => List.mem_append.mpr (Or.inr (h3 ev hev))⟩

theorem remove_not_mem_step (reg : CheckReg) (w : World) (e x : Entity) (c : CompId)
    (o : ScanOut) (hstep : stepInstance reg w e = some o)
    (havoid : ∀ f, reg.policy = Policy.repair f →
      ∀ e' cs' fcmds, f.run e' cs' = some fcmds → Cmd.remove x c ∉ fcmds) :
    Cmd.remove x c ∉ o.cmds := by
  cases hcs : w.comps e with
  | none =>
    rw [stepInstance_gone reg w e hcs] at hstep; cases hstep; simp
  | some cs =>
    by_cases hf : reg.filter cs
    · cases hpol : reg.policy with
      | invalid =>
        rw [stepInstance_invalid reg w e cs hcs hf hpol] at hstep; cases hstep; simp
      | purge =>
        rw [stepInstance_purge reg w e cs hcs hf hpol] at hstep; cases hstep; simp
      | panic =>
        rw [stepInstance_panic reg w e cs hcs hf hpol] at hstep; cases hstep
      | repair fixer =>
        cases hfx : fixer.run e cs with
        | none =>
          rw [stepInstance_repair_abort reg w e cs fixer hcs hf hpol hfx] at hstep
          cases hstep
        | some fcmds =>
          rw [stepInstance_repair reg w e cs fixer fcmds hcs hf hpol hfx] at hstep
          cases hstep
          intro hc
          rcases List.mem_cons.mp hc with hc1 | hc2
          · cases hc1
          · exact havoid fixer hpol e cs fcmds hfx hc2
    · rw [stepInstance_nomatch reg w e cs hcs (by simpa using hf)] at hstep
      cases hstep; simp

theorem remove_not_mem_runScan (reg : CheckReg) (w : World) (es : List Entity)
    (x : Entity) (c : CompId) (o : ScanOut) (hrun : runScan reg w es = some o)
    (havoid : ∀ f, reg.policy = Policy.repair f →
      ∀ e' cs' fcmds, f.run e' cs' = some fcmds → Cmd.remove x c ∉ fcmds) :
    Cmd.remove x c ∉ o.cmds := by
  induction es generalizing o with
  | nil => unfold runScan at hrun; cases hrun; simp
  | cons y ys ih =>
    unfold runScan at hrun
    cases hy : stepInstance reg w y with
    | none => rw [hy] at hrun; cases hrun
    | some oy =>
      rw [hy] at hrun
      cases hys : runScan reg w ys with
      | none => rw [hys] at hrun; cases hrun
      | some oys =>
        rw [hys] at hrun
        cases hrun
        intro hc
        rcases List.mem_append.mp hc with hc1 | hc2
        · exact remove_not_mem_step reg w y x c oy hy havoid hc1
        · exact ih oys hys hc2

theorem remove_not_mem_runChecks (regs : List CheckReg) (w : World)
    (x : Entity) (c : CompId) (o : ScanOut) (hrun : runChecks regs w = some o)
    (havoid : FixerAvoids regs (Cmd.remove x c)) :
    Cmd.remove x c ∉ o.cmds := by
  induction regs generalizing o with
  | nil => unfold runChecks at hrun; cases hrun; simp
  | cons r rs ih =>
    unfold runChecks at hrun
    cases hr : runCheck r w with
    | none => rw [hr] at hrun; cases hrun
    | some orr =>
      rw [hr] at hrun
      cases hrs : runChecks rs w with
      | none => rw [hrs] at hrun; cases hrun
      | some ors =>
        rw [hrs] at hrun
        cases hrun
        intro hc
        rcases List.mem_append.mp hc with hc1 | hc2
        · exact remove_not_mem_runScan r w (scanTargets r w) x c orr hr
            (fun f hf => havoid r (List.mem_cons_self r rs) f hf) hc1
        · exact ih ors hrs (fun reg hreg => havoid reg (List.mem_cons_of_mem r hreg)) hc2

theorem checkedOrGone_runCycle (regs : List CheckReg) (w w' : World) (log : List LogEv)
    (e : Entity) (h : checkedOrGone w e)
    (havoid : FixerAvoids regs (Cmd.remove e checkedId))
    (hrun : runCycle regs w = some (w', log)) : checkedOrGone w' e := by
  unfold runCycle at hrun
  cases ho : runChecks regs w with
  | none => rw [ho] at hrun; cases hrun
  | some o =>
    rw [ho] at hrun
    cases hrun
    exact checkedOrGone_applyCmds w e o.cmds h
      (remove_not_mem_runChecks regs w e checkedId o ho havoid)

theorem checkedOrGone_cycleStates (regs : List CheckReg) (w : World) (e : Entity) (n : Nat)
    (h : checkedOrGone w e) (havoid : FixerAvoids regs (Cmd.remove e checkedId)) :
    ∀ w' ∈ cycleStates regs n w, checkedOrGone w' e := by
  induction n generalizing w with
  | zero =>
    intro w' hw'
    unfold cycleStates at hw'
    rcases List.mem_singleton.mp hw' with rfl
    exact h
  | succ k ih =>
    intro w' hw'
    unfold cycleStates at hw'
    rcases List.mem_cons.mp hw' with rfl | hw2
    · exact h
    · cases hrun : runCycle regs w with
      | none => rw [hrun] at hw2; cases hw2
      | some p =>
        rw [hrun] at hw2
        exact ih p.1 (checkedOrGone_runCycle regs w p.1 p.2 e h havoid hrun) w' hw2

theorem alive_applyCmd (w : World) (e : Entity) (cmd : Cmd) (cs : Comps)
    (h : w.comps e = some cs) (hnd : cmd ≠ Cmd.despawn e) :
    ∃ cs', (applyCmd w cmd).comps e = some cs' := by
  cases cmd with
  | insert e' c v =>
    by_cases he : e = e'
    · subst he
      exact ⟨insertComp cs c v, by rw [comps_insert_self, h]; rfl⟩
    · exact ⟨cs, by rw [comps_insert_other w e e' c v he]; exact h⟩
  | remove e' c =>
    by_cases he : e = e'
    · subst he
      exact ⟨removeComp cs c, by rw [comps_remove_self, h]; rfl⟩
    · exact ⟨cs, by rw [comps_remove_other w e e' c he]; exact h⟩
  | despawn e' =>
    by_cases he : e = e'
    · subst he; exact absurd rfl hnd
    · exact ⟨cs, by rw [comps_despawn_other w e e' he]; exact h⟩

theorem alive_applyCmds (w : World) (e : Entity) (cmds : List Cmd) (cs : Comps)
    (h : w.comps e = some cs) (hnd : Cmd.despawn e ∉ cmds) :
    ∃ cs', (applyCmds w cmds).comps e = some cs' := by
  induction cmds generalizing w cs with
  | nil => exact ⟨cs, h⟩
  | cons c cl ih =>
    have h1 : c ≠ Cmd.despawn e := fun hc => hnd (hc ▸ List.mem_cons_self c cl)
    have h2 : Cmd.despawn e ∉ cl := fun hc => hnd (List.mem_cons_of_mem c hc)
    rcases alive_applyCmd w e c cs h h1 with ⟨cs', hcs'⟩
    exact ih (applyCmd w c) cs' hcs' h2

theorem order_applyCmd (w : World) (e : Entity) (cmd : Cmd)
    (h : e ∈ w.order) (hnd : cmd ≠ Cmd.despawn e) :
    e ∈ (applyCmd w cmd).order := by
  cases cmd with
  | insert e' c v => exact h
  | remove e' c => exact h
  | despawn e' =>
    have he : e ≠ e' := fun hc => hnd (by rw [hc])
    exact List.mem_filter.mpr ⟨h, by simp [he]⟩

theorem order_applyCmds (w : World) (e : Entity) (cmds : List Cmd)
    (h : e ∈ w.order) (hnd : Cmd.despawn e ∉ cmds) :
    e ∈ (applyCmds w cmds).order := by
  induction cmds generalizing w with
  | nil => exact h
  | cons c cl ih =>
    have h1 : c ≠ Cmd.despawn e := fun hc => hnd (hc ▸ List.mem_cons_self c cl)
    have h2 : Cmd.despawn e ∉ cl := fun hc => hnd (List.mem_cons_of_mem c hc)
    exact ih (applyCmd w c) (order_applyCmd w e c h h1) h2

theorem getComp_none_of_not_hasComp (cs : Comps) (c : CompId)
    (h : hasComp cs c = false) : getComp cs c = none := by
  unfold getComp
  rw [List.find?_eq_none.mpr]
  · rfl
  · intro p hp hpc
    have h2 : hasComp cs c = true := by
      unfold hasComp
      exact List.any_eq_true.mpr ⟨p, hp, hpc⟩
    rw [h] at h2
    cases h2

theorem mem_scanTargets (reg : CheckReg) (w : World) (e : Entity) (cs : Comps)
    (horder : e ∈ w.order) (hcs : w.comps e = some cs)
    (hkind : reg.kind cs = true) (hchk : hasComp cs checkedId = false) :
    e ∈ scanTargets reg w := by
  refine List.mem_filter.mpr ⟨horder, ?_⟩
  rw [hcs]
  simp [hkind, Unchecked, Without, hchk]

theorem MarkerInv_insert_checked (v : World) (x : Entity) (hv : MarkerInv v) :
    MarkerInv (applyCmd v (Cmd.insert x checkedId 0)) := by
  intro y hy
  by_cases hxy : y = x
  · subst hxy
    rcases hcs : v.comps y with _ | cs
    · have : (applyCmd v (Cmd.insert y checkedId 0)).comps y = none := by
        rw [comps_insert_self, hcs]; rfl
      rw [contains_of_gone _ y invalidId this] at hy
      cases hy
    · have hc2 : (applyCmd v (Cmd.insert y checkedId 0)).comps y
          = some (insertComp cs checkedId 0) := by
        rw [comps_insert_self, hcs]; rfl
      rw [contains_of_comps _ y checkedId _ hc2]
      exact hasComp_insertComp_self cs checkedId 0
  · have hc2 := comps_insert_other v y x checkedId 0 hxy
    unfold World.contains at hy ⊢
    rw [hc2] at hy ⊢
    exact hv y (by unfold World.contains; exact hy)

theorem MarkerInv_pair_invalid (v : World) (x : Entity) (hv : MarkerInv v) :
    MarkerInv (applyCmds v [Cmd.insert x checkedId 0, Cmd.insert x invalidId 0]) := by
  have h1 := MarkerInv_insert_checked v x hv
  set v1 := applyCmd v (Cmd.insert x checkedId 0) with hv1
  show MarkerInv (applyCmd v1 (Cmd.insert x invalidId 0))
  intro y hy
  by_cases hxy : y = x
  · subst hxy
    rcases hcs : v1.comps y with _ | cs
    · have : (applyCmd v1 (Cmd.insert y invalidId 0)).comps y = none := by
        rw [comps_insert_self, hcs]; rfl
      rw [contains_of_gone _ y invalidId this] at hy
      cases hy
    · have hc2 : (applyCmd v1 (Cmd.insert y invalidId 0)).comps y
          = some (insertComp cs invalidId 0) := by
        rw [comps_insert_self, hcs]; rfl
      rw [contains_of_comps _ y checkedId _ hc2]
      rw [hasComp_insertComp_ne cs invalidId checkedId 0 (by decide)]
      have : v1.contains y checkedId = true := by
        rcases hcsv : v.comps y with _ | cs0
        · rw [hv1, comps_insert_self, hcsv] at hcs; cases hcs
        · have : v1.comps y = some (insertComp cs0 checkedId 0) := by
            rw [hv1, comps_insert_self, hcsv]; rfl
          rw [contains_of_comps _ y checkedId _ this]
          exact hasComp_insertComp_self cs0 checkedId 0
      rw [contains_of_comps _ y checkedId cs hcs] at this
      exact this
  · have hc2 := comps_insert_other v1 y x invalidId 0 hxy
    unfold World.contains at hy ⊢
    rw [hc2] at hy ⊢
    exact h1 y (by unfold World.contains; exact hy)

theorem MarkerInv_despawn (v : World) (x : Entity) (hv : MarkerInv v) :
    MarkerInv (applyCmd v (Cmd.despawn x)) := by
  intro y hy
  by_cases hxy : y = x
  · subst hxy
    rw [contains_of_gone _ y invalidId (comps_despawn_self v y)] at hy
    cases hy
  · have hc2 := comps_despawn_other v y x hxy
    unfold World.contains at hy ⊢
    rw [hc2] at hy ⊢
    exact hv y (by unfold World.contains; exact hy)

theorem MarkerInv_step (reg : CheckReg) (w : World) (e : Entity) (oe : ScanOut)
    (hstep : stepInstance reg w e = some oe)
    (hnr : ∀ f, reg.policy ≠ Policy.repair f) :
    ∀ v, MarkerInv v → MarkerInv (applyCmds v oe.cmds) := by
  intro v hv
  cases hcs : w.comps e with
  | none =>
    rw [stepInstance_gone reg w e hcs] at hstep
    cases hstep
    exact hv
  | some cs =>
    by_cases hf : reg.filter cs
    · cases hpol : reg.policy with
      | invalid =>
        rw [stepInstance_invalid reg w e cs hcs hf hpol] at hstep
        cases hstep
        exact MarkerInv_pair_invalid v e hv
      | purge =>
        rw [stepInstance_purge reg w e cs hcs hf hpol] at hstep
        cases hstep
        exact MarkerInv_despawn v e hv
      | panic =>
        rw [stepInstance_panic reg w e cs hcs hf hpol] at hstep
        cases hstep
      | repair fixer => exact absurd hpol (hnr fixer)
    · rw [stepInstance_nomatch reg w e cs hcs (by simpa using hf)] at hstep
      cases hstep
      exact MarkerInv_insert_checked v e hv

theorem MarkerInv_runScan (reg : CheckReg) (w : World) (es : List Entity) (o : ScanOut)
    (hrun : runScan reg w es = some o)
    (hnr : ∀ f, reg.policy ≠ Policy.repair f) :
    ∀ v, MarkerInv v → MarkerInv (applyCmds v o.cmds) := by
  induction es generalizing o with
  | nil =>
    unfold runScan at hrun
    cases hrun
    exact fun v hv => hv
  | cons y ys ih =>
    unfold runScan at hrun
    cases hy : stepInstance reg w y with
    | none => rw [hy] at hrun; cases hrun
    | some oy =>
      rw [hy] at hrun
      cases hys : runScan reg w ys with
      | none => rw [hys] at hrun; cases hrun
      | some oys =>
        rw [hys] at hrun
        cases hrun
        intro v hv
        show MarkerInv (applyCmds v (oy.cmds ++ oys.cmds))
        rw [applyCmds_append]
        exact ih oys hys _ (MarkerInv_step reg w y oy hy hnr v hv)

theorem MarkerInv_runChecks (regs : List CheckReg) (w : World) (o : ScanOut)
    (hrun : runChecks regs w = some o)
    (hnr : ∀ reg ∈ regs, ∀ f, reg.policy ≠ Policy.repair f) :
    ∀ v, MarkerInv v → MarkerInv (applyCmds v o.cmds) := by
  induction regs generalizing o with
  | nil =>
    unfold runChecks at hrun
    cases hrun
    exact fun v hv => hv
  | cons r rs ih =>
    unfold runChecks at hrun
    cases hr : runCheck r w with
    | none => rw [hr] at hrun; cases hrun
    | some orr =>
      rw [hr] at hrun
      cases hrs : runChecks rs w with
      | none => rw [hrs] at hrun; cases hrun
      | some ors =>
        rw [hrs] at hrun
        cases hrun
        intro v hv
        show MarkerInv (applyCmds v (orr.cmds ++ ors.cmds))
        rw [applyCmds_append]
        refine ih ors hrs (fun reg hreg => hnr reg (List.mem_cons_of_mem r hreg)) _ ?_
        exact MarkerInv_runScan r w (scanTargets r w) orr hr
          (hnr r (List.mem_cons_self r rs)) v hv

/-- Claim C4: for every entity in the store, the `Valid` view predicate is
true iff the `Checked` flag is present and the `Invalid` flag absent, at
every point where the view is read — in particular in any world reached
after whole cycles. -/
theorem valid_view_correct (regs : List CheckReg) (n : Nat) (w0 w : World)
    (log : List LogEv) (_hrun : runCycles regs n w0 = some (w, log))
    (e : Entity) (cs : Comps) (hcs : w.comps e = some cs) :
    Valid cs = true ↔ (w.contains e checkedId = true ∧ w.contains e invalidId = false) := by
  rw [contains_of_comps w e checkedId cs hcs, contains_of_comps w e invalidId cs hcs]
  simp [Valid, With, Without]

/-- Witness for claim C4, at a world holding one checked entity and an empty
run of cycles. -/
theorem valid_view_correct_witness :
    Valid [(fooId, 0), (checkedId, 0)] = true ↔
      (wChecked.contains 0 checkedId = true ∧ wChecked.contains 0 invalidId = false) :=
  valid_view_correct [] 0 wChecked wChecked [] rfl 0 [(fooId, 0), (checkedId, 0)] rfl

/-- Claim C7: a scanned entity whose filter does not match gets a buffered
`Checked` insertion and sees no policy; and a policy is dispatched (a policy
log event is emitted or the process aborts during dispatch) iff the filter
matches. -/
theorem filter_gates_policy (reg : CheckReg) (w : World) (e : Entity) (cs : Comps)
    (hcs : w.comps e = some cs) :
    (reg.filter cs = false →
      stepInstance reg w e = some ⟨[Cmd.insert e checkedId 0], [LogEv.valid e]⟩) ∧
    ((stepInstance reg w e = none ∨
        ∃ o, stepInstance reg w e = some o ∧ ∃ ev ∈ o.log, ev.isPolicy = true)
      ↔ reg.filter cs = true) := by
  refine ⟨fun hf => stepInstance_nomatch reg w e cs hcs hf, ?_, ?_⟩
  · intro hd
    cases hb : reg.filter cs
    · rw [stepInstance_nomatch reg w e cs hcs hb] at hd
      rcases hd with hd | ⟨o, ho, ev, hev, hp⟩
      · cases hd
      · cases ho
        rcases List.mem_singleton.mp hev with rfl
        simp [LogEv.isPolicy] at hp
    · rfl
  · intro hf
    cases hpol : reg.policy with
    | invalid =>
      exact Or.inr ⟨_, stepInstance_invalid reg w e cs hcs hf hpol,
        LogEv.invalid e, List.mem_singleton.mpr rfl, rfl⟩
    | purge =>
      exact Or.inr ⟨_, stepInstance_purge reg w e cs hcs hf hpol,
        LogEv.purged e, List.mem_singleton.mpr rfl, rfl⟩
    | panic => exact Or.inl (stepInstance_panic reg w e cs hcs hf hpol)
    | repair fixer =>
      cases hfx : fixer.run e cs with
      | none => exact Or.inl (stepInstance_repair_abort reg w e cs fixer hcs hf hpol hfx)
      | some fcmds =>
        exact Or.inr ⟨_, stepInstance_repair reg w e cs fixer fcmds hcs hf hpol hfx,
          LogEv.repaired e, List.mem_singleton.mpr rfl, rfl⟩

/-- Witness for claim C7, at the `test_valid` scenario: entity `0` has `Foo`
and `Bar`, the check filter is `Without<Bar>`. -/
theorem filter_gates_policy_witness :
    (regPanicBar.filter [(fooId, 0), (barId, 0)] = false →
      stepInstance regPanicBar wFooBar 0
        = some ⟨[Cmd.insert 0 checkedId 0], [LogEv.valid 0]⟩) ∧
    ((stepInstance regPanicBar wFooBar 0 = none ∨
        ∃ o, stepInstance regPanicBar wFooBar 0 = some o ∧ ∃ ev ∈ o.log, ev.isPolicy = true)
      ↔ regPanicBar.filter [(fooId, 0), (barId, 0)] = true) :=
  filter_gates_policy regPanicBar wFooBar 0 [(fooId, 0), (barId, 0)] rfl

/-- Claim C8: under the `Panic` policy a matching scanned entity aborts the
process synchronously: the whole check returns no buffer (nothing is applied
at the synchronization point), and neither the remaining checks of this
cycle nor any later cycle runs. -/
theorem panic_aborts_synchronously (regs1 regs2 : List CheckReg) (reg : CheckReg)
    (w : World) (e : Entity) (cs : Comps) (n : Nat)
    (hpol : reg.policy = Policy.panic)
    (hmem : e ∈ scanTargets reg w)
    (hcs : w.comps e = some cs)
    (hf : reg.filter cs = true) :
    runCheck reg w = none ∧
    runChecks (regs1 ++ reg :: regs2) w = none ∧
    runCycle (regs1 ++ reg :: regs2) w = none ∧
    runCycles (regs1 ++ reg :: regs2) (n + 1) w = none := by
  have h1 : stepInstance reg w e = none := stepInstance_panic reg w e cs hcs hf hpol
  have h2 : runCheck reg w = none := runScan_none_of_mem reg w (scanTargets reg w) e hmem h1
  have h3 : runChecks (regs1 ++ reg :: regs2) w = none :=
    runChecks_none_of_mem _ w reg
      (List.mem_append.mpr (Or.inr (List.mem_cons_self reg regs2))) h2
  have h4 : runCycle (regs1 ++ reg :: regs2) w = none := by
    unfold runCycle
    rw [h3]
  refine ⟨h2, h3, h4, ?_⟩
  unfold runCycles
  rw [h4]

/-- Witness for claim C8, at the `test_panic` scenario: entity `0` has only
`Foo`, the check is `check::<Foo, Without<Bar>>(panic())`. -/
theorem panic_aborts_synchronously_witness :
    runCheck regPanicBar wFoo = none ∧
    runChecks ([] ++ regPanicBar :: []) wFoo = none ∧
    runCycle ([] ++ regPanicBar :: []) wFoo = none ∧
    runCycles ([] ++ regPanicBar :: []) (0 + 1) wFoo = none :=
  panic_aborts_synchronously [] [] regPanicBar wFoo 0 [(fooId, 0)] 0 rfl
    (by decide) rfl rfl

/-- Claim C10: the transform-based repair constructor's fixer aborts the
process when the expected record is absent (also when reached through the
engine's dispatch), and under the precondition that the record is present
its failure branch is unreachable: it buffers removal of the old record and
then insertion of the transformed value. -/
theorem repair_replace_with_correct (tId uId : CompId) (g : Nat → Nat)
    (e : Entity) (cs : Comps) :
    (hasComp cs tId = false → (repair_replace_with_fixer tId uId g).run e cs = none) ∧
    (∀ v, getComp cs tId = some v →
      (repair_replace_with_fixer tId uId g).run e cs
        = some [Cmd.remove e tId, Cmd.insert e uId (g v)]) ∧
    (∀ (w : World) (reg : CheckReg), reg.policy = repair_replace_with tId uId g →
      w.comps e = some cs → reg.filter cs = true → hasComp cs tId = false →
      stepInstance reg w e = none) := by
  refine ⟨?_, ?_, ?_⟩
  · intro h
    simp [repair_replace_with_fixer, getComp_none_of_not_hasComp cs tId h]
  · intro v hv
    simp [repair_replace_with_fixer, hv]
  · intro w reg hpol hcs hf h
    have hfx : (repair_replace_with_fixer tId uId g).run e cs = none := by
      simp [repair_replace_with_fixer, getComp_none_of_not_hasComp cs tId h]
    exact stepInstance_repair_abort reg w e cs (repair_replace_with_fixer tId uId g)
      hcs hf hpol hfx

/-- Witness for claim C10, replacing `Bar` by `Baz` on an entity that only
has `Foo`. -/
theorem repair_replace_with_correct_witness :
    (hasComp [(fooId, 0)] barId = false →
      (repair_replace_with_fixer barId bazId (fun v => v + 1)).run 0 [(fooId, 0)] = none) ∧
    (∀ v, getComp [(fooId, 0)] barId = some v →
      (repair_replace_with_fixer barId bazId (fun v => v + 1)).run 0 [(fooId, 0)]
        = some [Cmd.remove 0 barId, Cmd.insert 0 bazId (v + 1)]) ∧
    (∀ (w : World) (reg : CheckReg),
      reg.policy = repair_replace_with barId bazId (fun v => v + 1) →
      w.comps 0 = some [(fooId, 0)] → reg.filter [(fooId, 0)] = true →
      hasComp [(fooId, 0)] barId = false →
      stepInstance reg w 0 = none) :=
  repair_replace_with_correct barId bazId (fun v => v + 1) 0 [(fooId, 0)]

theorem runCheck_singleton (reg : CheckReg) (w : World) (e : Entity) (oe : ScanOut)
    (htgt : scanTargets reg w = [e]) (hstep : stepInstance reg w e = some oe) :
    runCheck reg w = some oe := by
  unfold runCheck
  rw [htgt]
  simp [runScan, hstep]

theorem runCycle_singleton (reg : CheckReg) (w : World) (o : ScanOut)
    (h : runCheck reg w = some o) :
    runCycle [reg] w = some (applyCmds w o.cmds, o.log) := by
  simp [runCycle, runChecks, h]

/-- Claim C2 counterexample: with a fixer whose only command is the insertion
of a `Repaired` marker, the engine's buffer for the dispatched entity holds
the engine's `Checked` insertion FIRST and the fixer's operation second —
not the claimed order (fixer's operations first, then `Checked`). -/
theorem repair_order_counterexample :
    stepInstance regRepairMark wFoo 0
      = some ⟨[Cmd.insert 0 checkedId 0, Cmd.insert 0 repairedId 0], [LogEv.repaired 0]⟩ ∧
    [Cmd.insert 0 checkedId 0, Cmd.insert 0 repairedId 0]
      ≠ [Cmd.insert 0 repairedId 0, Cmd.insert 0 checkedId 0] := by
  exact ⟨by decide, by decide⟩

/-- Claim C2 (amended): under the `Repair` policy, for every matching entity
the engine buffers its own `Checked` insertion BEFORE invoking the fixer
(lib.rs lines 86-87), so the buffered order for that entity is the engine's
`Checked` insertion first, then the fixer's operations, in program order. -/
theorem repair_buffers_checked_first (reg : CheckReg) (w : World) (e : Entity)
    (cs : Comps) (fixer : Fixer) (fcmds : List Cmd)
    (hcs : w.comps e = some cs) (hf : reg.filter cs = true)
    (hpol : reg.policy = Policy.repair fixer) (hfx : fixer.run e cs = some fcmds)
    (htgt : scanTargets reg w = [e]) :
    runCheck reg w = some ⟨Cmd.insert e checkedId 0 :: fcmds, [LogEv.repaired e]⟩ :=
  runCheck_singleton reg w e _ htgt
    (stepInstance_repair reg w e cs fixer fcmds hcs hf hpol hfx)

/-- Witness for the amended claim C2 at the marker fixer scenario. -/
theorem repair_buffers_checked_first_witness :
    runCheck regRepairMark wFoo
      = some ⟨Cmd.insert 0 checkedId 0 :: [Cmd.insert 0 repairedId 0], [LogEv.repaired 0]⟩ :=
  repair_buffers_checked_first regRepairMark wFoo 0 [(fooId, 0)] fixMark
    [Cmd.insert 0 repairedId 0] rfl rfl rfl rfl (by decide)

/-- Claim C3: when the fixer of a `Repair` dispatch ends its buffered
operations with the re-check trigger, the clearing wins over the engine's
own `Checked` insertion (which was buffered earlier in program order): after
the synchronization point the entity is alive with neither `Checked` nor
`Invalid`, and every check whose kind matches it will select it again on the
next cycle. -/
theorem recheck_clear_wins (reg : CheckReg) (w : World) (e : Entity) (cs : Comps)
    (fixer : Fixer) (pre : List Cmd)
    (hcs : w.comps e = some cs)
    (hf : reg.filter cs = true)
    (hpol : reg.policy = Policy.repair fixer)
    (hfx : fixer.run e cs = some (pre ++ check_again e))
    (htgt : scanTargets reg w = [e])
    (hnd : Cmd.despawn e ∉ pre) :
    ∃ w' log, runCycle [reg] w = some (w', log) ∧
      w'.contains e checkedId = false ∧
      w'.contains e invalidId = false ∧
      (∃ cs', w'.comps e = some cs') ∧
      (∀ (reg' : CheckReg) (cs' : Comps), w'.comps e = some cs' → reg'.kind cs' = true →
        e ∈ scanTargets reg' w') := by
  have hstep := stepInstance_repair reg w e cs fixer (pre ++ check_again e) hcs hf hpol hfx
  have hrc := runCheck_singleton reg w e _ htgt hstep
  have hcyc := runCycle_singleton reg w _ hrc
  refine ⟨_, _, hcyc, ?_⟩
  have hsplit : Cmd.insert e checkedId 0 :: (pre ++ check_again e)
      = (Cmd.insert e checkedId 0 :: pre) ++ check_again e := by
    simp
  have heq : applyCmds w (Cmd.insert e checkedId 0 :: (pre ++ check_again e))
      = applyCmds (applyCmds w (Cmd.insert e checkedId 0 :: pre)) (check_again e) := by
    rw [hsplit, applyCmds_append]
  have hnd1 : Cmd.despawn e ∉ (Cmd.insert e checkedId 0 :: pre) := by
    intro hmm
    rcases List.mem_cons.mp hmm with hmm1 | hmm2
    · exact Cmd.noConfusion hmm1
    · exact hnd hmm2
  obtain ⟨cs1, hcs1⟩ := alive_applyCmds w e (Cmd.insert e checkedId 0 :: pre) cs hcs hnd1
  have ha : (applyCmd (applyCmds w (Cmd.insert e checkedId 0 :: pre))
      (Cmd.remove e checkedId)).comps e = some (removeComp cs1 checkedId) := by
    rw [comps_remove_self, hcs1]; rfl
  have hb : (applyCmds (applyCmds w (Cmd.insert e checkedId 0 :: pre)) (check_again e)).comps e
      = some (removeComp (removeComp cs1 checkedId) invalidId) := by
    show (applyCmd (applyCmd (applyCmds w (Cmd.insert e checkedId 0 :: pre))
      (Cmd.remove e checkedId)) (Cmd.remove e invalidId)).comps e = _
    rw [comps_remove_self, ha]; rfl
  have hw' : (applyCmds w (Cmd.insert e checkedId 0 :: (pre ++ check_again e))).comps e
      = some (removeComp (removeComp cs1 checkedId) invalidId) := by
    rw [heq]; exact hb
  have hchk : hasComp (removeComp (removeComp cs1 checkedId) invalidId) checkedId = false := by
    rw [hasComp_removeComp_ne _ invalidId checkedId (by decide)]
    exact hasComp_removeComp_self cs1 checkedId
  have hinv2 : hasComp (removeComp (removeComp cs1 checkedId) invalidId) invalidId = false :=
    hasComp_removeComp_self _ invalidId
  have horder : e ∈ w.order := by
    have : e ∈ scanTargets reg w := by rw [htgt]; exact List.mem_singleton.mpr rfl
    exact (List.mem_filter.mp this).1
  have hndall : Cmd.despawn e ∉ Cmd.insert e checkedId 0 :: (pre ++ check_again e) := by
    intro hmm
    rcases List.mem_cons.mp hmm with hmm1 | hmm2
    · exact Cmd.noConfusion hmm1
    · rcases List.mem_append.mp hmm2 with hmm3 | hmm4
      · exact hnd hmm3
      · rcases List.mem_cons.mp hmm4 with hmm5 | hmm6
        · exact Cmd.noConfusion hmm5
        · rcases List.mem_singleton.mp hmm6 with hmm7
          exact Cmd.noConfusion hmm7
  have horder' : e ∈ (applyCmds w (Cmd.insert e checkedId 0 :: (pre ++ check_again e))).order :=
    order_applyCmds w e _ horder hndall
  refine ⟨by rw [contains_of_comps _ e checkedId _ hw']; exact hchk,
    by rw [contains_of_comps _ e invalidId _ hw']; exact hinv2,
    ⟨_, hw'⟩, ?_⟩
  intro reg' cs' hcs' hkind
  have : cs' = removeComp (removeComp cs1 checkedId) invalidId := by
    rw [hw'] at hcs'
    exact (Option.some.inj hcs').symm
  subst this
  exact mem_scanTargets reg' _ e _ horder' hcs' hkind hchk

/-- Witness for claim C3 at the `test_check_again` scenario: the fixer
inserts `Repaired` and then invokes `check_again`. -/
theorem recheck_clear_wins_witness :
    ∃ w' log, runCycle [regRecheck] wFoo = some (w', log) ∧
      w'.contains 0 checkedId = false ∧
      w'.contains 0 invalidId = false ∧
      (∃ cs', w'.comps 0 = some cs') ∧
      (∀ (reg' : CheckReg) (cs' : Comps), w'.comps 0 = some cs' → reg'.kind cs' = true →
        0 ∈ scanTargets reg' w') :=
  recheck_clear_wins regRecheck wFoo 0 [(fooId, 0)] fixRecheck
    [Cmd.insert 0 repairedId 0] rfl rfl rfl rfl (by decide) (by decide)

/-- Claim C1: snapshot isolation.  Two checks on one cycle observe the same
pre-cycle state whichever way they are ordered: the cycle aborts under one
order iff it aborts under the other, the emitted log events are the same up
to permutation, and when the second check's filter matches a scanned entity
under the `Panic` policy the process aborts under both registration orders —
the first check's buffered `Checked` insertions never suppress it. -/
theorem snapshot_isolation (r1 r2 : CheckReg) (w : World) :
    ((runCycle [r1, r2] w).isNone = (runCycle [r2, r1] w).isNone) ∧
    (∀ o1 o2, runChecks [r1, r2] w = some o1 → runChecks [r2, r1] w = some o2 →
      o1.log.Perm o2.log) ∧
    (∀ e cs, w.comps e = some cs → e ∈ scanTargets r2 w → r2.filter cs = true →
      r2.policy = Policy.panic →
      runCycle [r1, r2] w = none ∧ runCycle [r2, r1] w = none) := by
  cases h1 : runCheck r1 w with
  | none =>
    have hA : runChecks [r1, r2] w = none := by simp [runChecks, h1]
    have hB : runChecks [r2, r1] w = none := by
      cases h2 : runCheck r2 w <;> simp [runChecks, h1, h2]
    refine ⟨by simp [runCycle, hA, hB], ?_, ?_⟩
    · intro o1 o2 ha hb
      rw [hA] at ha
      cases ha
    · intro e cs hcs hmem hf hpol
      exact ⟨by simp [runCycle, hA], by simp [runCycle, hB]⟩
  | some o1' =>
    cases h2 : runCheck r2 w with
    | none =>
      have hA : runChecks [r1, r2] w = none := by simp [runChecks, h1, h2]
      have hB : runChecks [r2, r1] w = none := by simp [runChecks, h1, h2]
      refine ⟨by simp [runCycle, hA, hB], ?_, ?_⟩
      · intro o1 o2 ha hb
        rw [hA] at ha
        cases ha
      · intro e cs hcs hmem hf hpol
        exact ⟨by simp [runCycle, hA], by simp [runCycle, hB]⟩
    | some o2' =>
      have hA : runChecks [r1, r2] w
          = some ⟨o1'.cmds ++ o2'.cmds, o1'.log ++ o2'.log⟩ := by
        simp [runChecks, h1, h2]
      have hB : runChecks [r2, r1] w
          = some ⟨o2'.cmds ++ o1'.cmds, o2'.log ++ o1'.log⟩ := by
        simp [runChecks, h1, h2]
      refine ⟨by simp [runCycle, hA, hB], ?_, ?_⟩
      · intro o1 o2 ha hb
        rw [hA] at ha
        rw [hB] at hb
        cases ha
        cases hb
        exact List.perm_append_comm
      · intro e cs hcs hmem hf hpol
        have hstep : stepInstance r2 w e = none := stepInstance_panic r2 w e cs hcs hf hpol
        have : runCheck r2 w = none :=
          runScan_none_of_mem r2 w (scanTargets r2 w) e hmem hstep
        rw [h2] at this
        cases this

/-- Witness for claim C1 at the `test_multiple` scenario: entity `0` has
`Foo` and `Bar`; the first check's filter (`Without<Bar>`) does not match, the
second check's filter (`Without<Baz>`) matches under `Panic`: the process
aborts under both registration orders. -/
theorem snapshot_isolation_witness :
    runCycle [regPanicBar, regPanicBaz] wFooBar = none ∧
    runCycle [regPanicBaz, regPanicBar] wFooBar = none :=
  (snapshot_isolation regPanicBar regPanicBaz wFooBar).2.2 0 [(fooId, 0), (barId, 0)]
    rfl (by decide) (by decide) rfl

/-- Claim C5: idempotence.  An entity that carries `Checked` (and no
`Invalid`) at the start of a cycle is selected by no registered check's scan
in that cycle or any later cycle, as long as no fixer ever buffers the
re-check trigger's `Checked` removal for it. -/
theorem checked_idempotent (regs : List CheckReg) (w w' : World) (e : Entity) (n : Nat)
    (reg : CheckReg)
    (hchk : w.contains e checkedId = true)
    (_hinv : w.contains e invalidId = false)
    (havoid : FixerAvoids regs (Cmd.remove e checkedId))
    (hw' : w' ∈ cycleStates regs n w)
    (_hreg : reg ∈ regs) :
    e ∉ scanTargets reg w' :=
  not_mem_scanTargets_of_checkedOrGone reg w' e
    (checkedOrGone_cycleStates regs w e n (Or.inr hchk) havoid w' hw')

/-- Witness for claim C5: a checked entity is not selected by the scan of
`check::<Foo, Without<Bar>>(invalid())`. -/
theorem checked_idempotent_witness : 0 ∉ scanTargets regInvalidBar wChecked :=
  checked_idempotent [regInvalidBar] wChecked wChecked 0 0 regInvalidBar
    (by decide) (by decide)
    (by
      intro r hr f hpol
      rcases List.mem_singleton.mp hr with rfl
      exact Policy.noConfusion hpol)
    (List.mem_singleton.mpr rfl)
    (List.mem_singleton.mpr rfl)

/-- Claim C6: single-pass termination.  A live unchecked entity of a checked
kind, not reachable by a fixer that removes its `Checked` flag, ends one
cycle either with the process aborted, or removed from the store, or with
`Checked` and `Invalid` both present, or with `Checked` present alone (the
four cases are mutually exclusive by construction). -/
theorem single_pass_terminal (regs : List CheckReg) (w : World) (e : Entity) (cs : Comps)
    (hcs : w.comps e = some cs)
    (horder : e ∈ w.order)
    (hchk : hasComp cs checkedId = false)
    (hknd : ∃ reg ∈ regs, reg.kind cs = true)
    (havoid : FixerAvoids regs (Cmd.remove e checkedId)) :
    runCycle regs w = none ∨
    ∃ w' log, runCycle regs w = some (w', log) ∧
      (w'.comps e = none ∨
       (w'.contains e checkedId = true ∧ w'.contains e invalidId = true) ∨
       (w'.contains e checkedId = true ∧ w'.contains e invalidId = false)) := by
  cases ho : runChecks regs w with
  | none =>
    refine Or.inl ?_
    unfold runCycle
    rw [ho]
  | some o =>
    refine Or.inr ⟨applyCmds w o.cmds, o.log, by unfold runCycle; rw [ho], ?_⟩
    obtain ⟨reg, hregmem, hkind⟩ := hknd
    have hmem : e ∈ scanTargets reg w := mem_scanTargets reg w e cs horder hcs hkind hchk
    obtain ⟨oR, hoR, hsubC, _⟩ := runChecks_sub regs w reg o ho hregmem
    obtain ⟨oe, hoe, hsubE, _⟩ := runScan_sub reg w (scanTargets reg w) e oR hoR hmem
    have hnorem : Cmd.remove e checkedId ∉ o.cmds :=
      remove_not_mem_runChecks regs w e checkedId o ho havoid
    have key : checkedOrGone (applyCmds w o.cmds) e := by
      by_cases hf : reg.filter cs = true
      · cases hpol : reg.policy with
        | invalid =>
          rw [stepInstance_invalid reg w e cs hcs hf hpol] at hoe
          cases hoe
          exact checkedOrGone_of_insert_mem w e 0 o.cmds
            (hsubC _ (hsubE _ (by simp))) hnorem
        | purge =>
          rw [stepInstance_purge reg w e cs hcs hf hpol] at hoe
          cases hoe
          exact Or.inl (gone_of_despawn_mem w e o.cmds (hsubC _ (hsubE _ (by simp))))
        | panic =>
          rw [stepInstance_panic reg w e cs hcs hf hpol] at hoe
          cases hoe
        | repair fixer =>
          cases hfx : fixer.run e cs with
          | none =>
            rw [stepInstance_repair_abort reg w e cs fixer hcs hf hpol hfx] at hoe
            cases hoe
          | some fcmds =>
            rw [stepInstance_repair reg w e cs fixer fcmds hcs hf hpol hfx] at hoe
            cases hoe
            exact checkedOrGone_of_insert_mem w e 0 o.cmds
              (hsubC _ (hsubE _ (List.mem_cons_self _ _))) hnorem
      · rw [stepInstance_nomatch reg w e cs hcs (by simpa using hf)] at hoe
        cases hoe
        exact checkedOrGone_of_insert_mem w e 0 o.cmds
          (hsubC _ (hsubE _ (by simp))) hnorem
    rcases key with hg | hc
    · exact Or.inl hg
    · cases hbi : (applyCmds w o.cmds).contains e invalidId with
      | false => exact Or.inr (Or.inr ⟨hc, rfl⟩)
      | true => exact Or.inr (Or.inl ⟨hc, rfl⟩)

/-- Witness for claim C6 at the `test_valid` scenario: entity `0` has `Foo`
and `Bar`, so `Without<Bar>` does not match under `Panic` and the cycle ends
with the entity checked. -/
theorem single_pass_terminal_witness :
    runCycle [regPanicBar] wFooBar = none ∨
    ∃ w' log, runCycle [regPanicBar] wFooBar = some (w', log) ∧
      (w'.comps 0 = none ∨
       (w'.contains 0 checkedId = true ∧ w'.contains 0 invalidId = true) ∨
       (w'.contains 0 checkedId = true ∧ w'.contains 0 invalidId = false)) :=
  single_pass_terminal [regPanicBar] wFooBar 0 [(fooId, 0), (barId, 0)]
    rfl (by decide) (by decide)
    ⟨regPanicBar, List.mem_singleton.mpr rfl, by decide⟩
    (by
      intro r hr f hpol
      rcases List.mem_singleton.mp hr with rfl
      exact Policy.noConfusion hpol)

/-- Claim C9: the marker invariant `Invalid → Checked` is preserved at
synchronization points by the engine's own operations (the engine inserts
`Invalid` only jointly with `Checked`), and the only flag-clearing operation,
the re-check trigger `check_again`, removes both flags. -/
theorem invalid_only_with_checked (regs : List CheckReg) (w w' : World) (log : List LogEv)
    (hnr : ∀ reg ∈ regs, ∀ f, reg.policy ≠ Policy.repair f)
    (hinv : MarkerInv w)
    (hrun : runCycle regs w = some (w', log)) :
    MarkerInv w' ∧
    ∀ (v : World) (x : Entity),
      (applyCmds v (check_again x)).contains x checkedId = false ∧
      (applyCmds v (check_again x)).contains x invalidId = false := by
  constructor
  · unfold runCycle at hrun
    cases ho : runChecks regs w with
    | none => rw [ho] at hrun; cases hrun
    | some o =>
      rw [ho] at hrun
      cases hrun
      exact MarkerInv_runChecks regs w o ho hnr w hinv
  · intro v x
    have e1 : applyCmds v (check_again x)
        = applyCmd (applyCmd v (Cmd.remove x checkedId)) (Cmd.remove x invalidId) := rfl
    cases hcs : v.comps x with
    | none =>
      have hgone : (applyCmds v (check_again x)).comps x = none :=
        comps_applyCmds_gone v x _ hcs
      rw [contains_of_gone _ x checkedId hgone, contains_of_gone _ x invalidId hgone]
      exact ⟨rfl, rfl⟩
    | some cs =>
      have ha : (applyCmd v (Cmd.remove x checkedId)).comps x
          = some (removeComp cs checkedId) := by
        rw [comps_remove_self, hcs]; rfl
      have hb : (applyCmds v (check_again x)).comps x
          = some (removeComp (removeComp cs checkedId) invalidId) := by
        rw [e1, comps_remove_self, ha]; rfl
      constructor
      · rw [contains_of_comps _ x checkedId _ hb]
        rw [hasComp_removeComp_ne _ invalidId checkedId (by decide)]
        exact hasComp_removeComp_self cs checkedId
      · rw [contains_of_comps _ x invalidId _ hb]
        exact hasComp_removeComp_self _ invalidId

/-- Witness for claim C9 at the `test_invalid` scenario: entity `0` has only
`Foo`, the check `check::<Foo, Without<Bar>>(invalid())` matches and buffers
`(Checked, Invalid)`; the invariant holds after the cycle. -/
theorem invalid_only_with_checked_witness :
    MarkerInv (applyCmds wFoo [Cmd.insert 0 checkedId 0, Cmd.insert 0 invalidId 0]) ∧
    ∀ (v : World) (x : Entity),
      (applyCmds v (check_again x)).contains x checkedId = false ∧
      (applyCmds v (check_again x)).contains x invalidId = false :=
  invalid_only_with_checked [regInvalidBar] wFoo
    (applyCmds wFoo [Cmd.insert 0 checkedId 0, Cmd.insert 0 invalidId 0])
    [LogEv.invalid 0]
    (by
      intro r hr f
      rcases List.mem_singleton.mp hr with rfl
      intro hpol
      exact Policy.noConfusion hpol)
    (by
      intro x hx
      by_cases h0 : x = 0
      · subst h0
        have hfalse : wFoo.contains 0 invalidId = false := by decide
        rw [hfalse] at hx
        cases hx
      · have hg : wFoo.comps x = none := by
          simp [wFoo, h0]
        rw [contains_of_gone wFoo x invalidId hg] at hx
        cases hx)
    rfl
